import Mathlib

set_option maxRecDepth 16384

/-!
# Verification of the `pkg-id/uuid` identifier codec and v4 generator

A shallow embedding of `uuid.go`.  Go byte strings and the 16-byte `UUID`
array are both modelled as `List Nat` whose entries are bytes (`< 256`).
Go's `(value, error)` returns are modelled as pairs whose second component
is an `Option` of an error type.
-/

namespace UUIDSpec

/-- Embeds the three distinguishable causes of `Parse` failure
(`uuid: incorrect UUID length`, `uuid: expected dashes …`,
`uuid: invalid UUID string`). -/
inductive FormatError where
  | badLength
  | missingSeparator
  | invalidHex
deriving DecidableEq, Repr

/-- Embeds the error returned when the entropy source cannot supply
16 bytes (`io.ReadFull` returning `io.EOF` or `io.ErrUnexpectedEOF`). -/
inductive ReadError where
  | sourceRead
deriving DecidableEq, Repr

/-- `Nil`, the all-zero `UUID` (`var Nil UUID` in `uuid.go`). -/
def Nil : List Nat := List.replicate 16 0

/-- The `hexValues` table of `uuid.go`: value of a byte as a hexadecimal
digit, or `0xff` for a non-digit.  Copied entry by entry. -/
def hexValues : List Nat := [
  255, 255, 255, 255, 255, 255, 255, 255, 255, 255, 255, 255, 255, 255, 255, 255,
  255, 255, 255, 255, 255, 255, 255, 255, 255, 255, 255, 255, 255, 255, 255, 255,
  255, 255, 255, 255, 255, 255, 255, 255, 255, 255, 255, 255, 255, 255, 255, 255,
  0, 1, 2, 3, 4, 5, 6, 7, 8, 9, 255, 255, 255, 255, 255, 255,
  255, 10, 11, 12, 13, 14, 15, 255, 255, 255, 255, 255, 255, 255, 255, 255,
  255, 255, 255, 255, 255, 255, 255, 255, 255, 255, 255, 255, 255, 255, 255, 255,
  255, 10, 11, 12, 13, 14, 15, 255, 255, 255, 255, 255, 255, 255, 255, 255,
  255, 255, 255, 255, 255, 255, 255, 255, 255, 255, 255, 255, 255, 255, 255, 255,
  255, 255, 255, 255, 255, 255, 255, 255, 255, 255, 255, 255, 255, 255, 255, 255,
  255, 255, 255, 255, 255, 255, 255, 255, 255, 255, 255, 255, 255, 255, 255, 255,
  255, 255, 255, 255, 255, 255, 255, 255, 255, 255, 255, 255, 255, 255, 255, 255,
  255, 255, 255, 255, 255, 255, 255, 255, 255, 255, 255, 255, 255, 255, 255, 255,
  255, 255, 255, 255, 255, 255, 255, 255, 255, 255, 255, 255, 255, 255, 255, 255,
  255, 255, 255, 255, 255, 255, 255, 255, 255, 255, 255, 255, 255, 255, 255, 255,
  255, 255, 255, 255, 255, 255, 255, 255, 255, 255, 255, 255, 255, 255, 255, 255,
  255, 255, 255, 255, 255, 255, 255, 255, 255, 255, 255, 255, 255, 255, 255, 255]

/-- Look-up in the `hexValues` table.  Go indexes the 256-entry array with a
byte; inputs `≥ 256` cannot occur there and get the invalid marker. -/
def hexValue (c : Nat) : Nat := hexValues.getD c 255

/-- One lower-case hex digit of Go's `encoding/hex` table
`"0123456789abcdef"`, as an ASCII code. -/
def hexChar (n : Nat) : Nat := if n < 10 then 48 + n else 87 + n

/-- `hex.Encode` of a single byte: two lower-case ASCII hex digits. -/
def encodeByte (b : Nat) : List Nat := [hexChar (b / 16), hexChar (b % 16)]

/-- `encodeHex` of `uuid.go`: bytes 0–3, `-`, 4–5, `-`, 6–7, `-`, 8–9, `-`,
10–15, hex-encoded into a 36-byte buffer (45 is ASCII `-`). -/
def encodeHex (u : List Nat) : List Nat :=
  encodeByte (u.getD 0 0) ++ encodeByte (u.getD 1 0) ++
  encodeByte (u.getD 2 0) ++ encodeByte (u.getD 3 0) ++
  [45] ++
  encodeByte (u.getD 4 0) ++ encodeByte (u.getD 5 0) ++
  [45] ++
  encodeByte (u.getD 6 0) ++ encodeByte (u.getD 7 0) ++
  [45] ++
  encodeByte (u.getD 8 0) ++ encodeByte (u.getD 9 0) ++
  [45] ++
  encodeByte (u.getD 10 0) ++ encodeByte (u.getD 11 0) ++
  encodeByte (u.getD 12 0) ++ encodeByte (u.getD 13 0) ++
  encodeByte (u.getD 14 0) ++ encodeByte (u.getD 15 0)

/-- `UUID.String` of `uuid.go`: the canonical 36-character form, as the
list of its ASCII codes. -/
def uuidString (u : List Nat) : List Nat := encodeHex u

/-- `hexToByte` of `uuid.go`: converts hex characters `x1` and `x2` into one
byte together with the validity flag.  Go computes `(b1 << 4) | b2` in
8-bit arithmetic, hence the `% 256`. -/
def hexToByte (x1 x2 : Nat) : Nat × Bool :=
  ((hexValue x1 * 16) % 256 ||| hexValue x2,
   decide (hexValue x1 ≠ 255) && decide (hexValue x2 ≠ 255))

/-- `hexStartedIndex` of `uuid.go`: index of the first hex digit of each of
the 16 bytes inside the 36-character form. -/
def hexStartedIndex : List Nat :=
  [0, 2, 4, 6, 9, 11, 14, 16, 19, 21, 24, 26, 28, 30, 32, 34]

/-- The loop body of `parse` in `uuid.go`: walk the index list, convert each
character pair, abort with `none` on the first invalid pair. -/
def parseLoop (s : List Nat) : List Nat → Option (List Nat)
  | [] => some []
  | start :: rest =>
    let p := hexToByte (s.getD start 0) (s.getD (start + 1) 0)
    if p.2 then
      match parseLoop s rest with
      | some us => some (p.1 :: us)
      | none => none
    else none

/-- `parse` of `uuid.go`: the actual parsing given the index table; any
invalid pair yields `Nil` plus the invalid-hex error. -/
def parse (s : List Nat) (indexes : List Nat) : List Nat × Option FormatError :=
  match parseLoop s indexes with
  | some us => (us, none)
  | none => (Nil, some .invalidHex)

/-- `Parse` of `uuid.go`: length check, separator check, then hex decoding. -/
def Parse (s : List Nat) : List Nat × Option FormatError :=
  if s.length ≠ 36 then (Nil, some .badLength)
  else if s.getD 8 0 ≠ 45 ∨ s.getD 13 0 ≠ 45 ∨ s.getD 18 0 ≠ 45 ∨ s.getD 23 0 ≠ 45 then
    (Nil, some .missingSeparator)
  else parse s hexStartedIndex

/-- `IsV4` of `uuid.go`: `Nil` is vacuously valid; otherwise the version
nibble `uid[6]>>4` must be 4 and the variant bits `uid[8]>>6` must be 2. -/
def IsV4 (uid : List Nat) : Bool :=
  if uid = Nil then true
  else if uid.getD 6 0 >>> 4 ≠ 4 then false
  else if uid.getD 8 0 >>> 6 ≠ 2 then false
  else true

/-- `fillUUID` of `uuid.go`.  A reader is modelled by the byte list it can
still supply; `io.ReadFull` succeeds exactly when at least 16 bytes are
available, and on failure `Nil` is returned with the error. -/
def fillUUID (available : List Nat) : List Nat × Option ReadError :=
  if available.length < 16 then (Nil, some .sourceRead)
  else (available.take 16, none)

/-- `V4Generator.NewUUID` of `uuid.go`: fill from the reader produced by the
factory, then stamp the version nibble of byte 6 and the variant bits of
byte 8. -/
def NewUUID (available : List Nat) : List Nat × Option ReadError :=
  match fillUUID available with
  | (_, some e) => (Nil, some e)
  | (uid, none) =>
    let uid := uid.set 6 ((uid.getD 6 0 &&& 0x0f) ||| 0x40)
    let uid := uid.set 8 ((uid.getD 8 0 &&& 0x3f) ||| 0x80)
    (uid, none)

/-- The 16 bytes supplied by `StaticReader` of `uuid.go`. -/
def StaticReaderBytes : List Nat :=
  [0x00, 0x01, 0x02, 0x03, 0x04, 0x05, 0x06, 0x07,
   0x08, 0x09, 0x0a, 0x0b, 0x0c, 0x0d, 0x0e, 0x0f]

/-- The bytes supplied by `ErrorsReader` of `uuid.go`: its `Read` always
returns `io.EOF`, i.e. no bytes are available. -/
def ErrorsReaderBytes : List Nat := []

/-- ASCII codes of the constant `StaticUUID`
`"00010203-0405-4607-8809-0a0b0c0d0e0f"` of `uuid.go`. -/
def StaticUUIDChars : List Nat :=
  [48, 48, 48, 49, 48, 50, 48, 51, 45, 48, 52, 48, 53, 45, 52, 54, 48, 55,
   45, 56, 56, 48, 57, 45, 48, 97, 48, 98, 48, 99, 48, 100, 48, 101, 48, 102]

/-- ASCII codes of the canonical all-zero string
`"00000000-0000-0000-0000-000000000000"`. -/
def ZeroUUIDChars : List Nat :=
  [48, 48, 48, 48, 48, 48, 48, 48, 45, 48, 48, 48, 48, 45, 48, 48, 48, 48,
   45, 48, 48, 48, 48, 45, 48, 48, 48, 48, 48, 48, 48, 48, 48, 48, 48, 48]

/-- ASCII codes of `"ffffffff-ffff-ffff-ffff-ffffffffffff"`: syntactically
valid, but with a version nibble `f` and variant bits `11`. -/
def AllFChars : List Nat :=
  [102, 102, 102, 102, 102, 102, 102, 102, 45, 102, 102, 102, 102, 45,
   102, 102, 102, 102, 45, 102, 102, 102, 102, 45, 102, 102, 102, 102,
   102, 102, 102, 102, 102, 102, 102, 102]

/-- The transformation named by the spec: replace the lower-case hex letters
`a`–`f` by their upper-case forms, leaving every other character alone. -/
def upperHexChar (c : Nat) : Nat := if 97 ≤ c ∧ c ≤ 102 then c - 32 else c

/-- The transformation named by the spec: replace the upper-case hex letters
`A`–`F` by their lower-case forms, leaving every other character alone. -/
def lowerHexChar (c : Nat) : Nat := if 65 ≤ c ∧ c ≤ 70 then c + 32 else c

/-- A lower-case hex digit `0-9a-f`, as an ASCII code. -/
def isLowerHexDigit (c : Nat) : Bool :=
  decide ((48 ≤ c ∧ c ≤ 57) ∨ (97 ≤ c ∧ c ≤ 102))

/-! ### Per-character facts, established by exhaustive evaluation -/

theorem hexToByte_encode_fin :
    ∀ b : Fin 256, hexToByte (hexChar (b.val / 16)) (hexChar (b.val % 16)) = (b.val, true) := by
  decide

theorem hexToByte_encode (b : Nat) (hb : b < 256) :
    hexToByte (hexChar (b / 16)) (hexChar (b % 16)) = (b, true) :=
  hexToByte_encode_fin ⟨b, hb⟩

theorem hexValue_table_fin :
    ∀ c : Fin 256, hexValue c.val ≠ 255 →
      hexValue c.val < 16 ∧
      hexValue (upperHexChar c.val) = hexValue c.val ∧
      hexChar (hexValue c.val) = lowerHexChar c.val := by
  decide

theorem hexValue_big (c : Nat) (h : 256 ≤ c) : hexValue c = 255 :=
  List.getD_eq_default _ _ (le_trans (by decide) h)

theorem hexValue_small (c : Nat) (h : hexValue c ≠ 255) : c < 256 := by
  by_contra hc
  exact h (hexValue_big c (by omega))

theorem hexValue_lt16 (c : Nat) (h : hexValue c ≠ 255) : hexValue c < 16 :=
  (hexValue_table_fin ⟨c, hexValue_small c h⟩ h).1

theorem hexValue_upper (c : Nat) (h : hexValue c ≠ 255) :
    hexValue (upperHexChar c) = hexValue c :=
  (hexValue_table_fin ⟨c, hexValue_small c h⟩ h).2.1

theorem hexChar_lower (c : Nat) (h : hexValue c ≠ 255) :
    hexChar (hexValue c) = lowerHexChar c :=
  (hexValue_table_fin ⟨c, hexValue_small c h⟩ h).2.2

theorem isLowerHexDigit_hexChar_fin :
    ∀ d : Fin 16, isLowerHexDigit (hexChar d.val) = true := by decide

theorem isLowerHexDigit_hexChar (d : Nat) (hd : d < 16) :
    isLowerHexDigit (hexChar d) = true :=
  isLowerHexDigit_hexChar_fin ⟨d, hd⟩

theorem or_mul16_fin : ∀ a b : Fin 16, (a.val * 16) ||| b.val = a.val * 16 + b.val := by
  decide

/-- The validity flag of `hexToByte` is exactly validity of both digits. -/
theorem hexToByte_ok_iff (x1 x2 : Nat) :
    (hexToByte x1 x2).2 = true ↔ hexValue x1 ≠ 255 ∧ hexValue x2 ≠ 255 := by
  simp [hexToByte]

/-- On a valid pair, `hexToByte` assembles the two hex values without
truncation. -/
theorem hexToByte_ok (x1 x2 : Nat) (h : (hexToByte x1 x2).2 = true) :
    (hexToByte x1 x2).1 = hexValue x1 * 16 + hexValue x2 ∧
    hexValue x1 < 16 ∧ hexValue x2 < 16 := by
  obtain ⟨h1, h2⟩ := (hexToByte_ok_iff x1 x2).mp h
  have v1 := hexValue_lt16 x1 h1
  have v2 := hexValue_lt16 x2 h2
  refine ⟨?_, v1, v2⟩
  show (hexValue x1 * 16) % 256 ||| hexValue x2 = _
  rw [Nat.mod_eq_of_lt (by omega)]
  exact or_mul16_fin ⟨hexValue x1, v1⟩ ⟨hexValue x2, v2⟩

/-! ### The parse loop -/

/-- When every pair is valid, the loop collects the converted bytes. -/
theorem parseLoop_eq_map (s : List Nat) (idx : List Nat)
    (h : ∀ start ∈ idx, (hexToByte (s.getD start 0) (s.getD (start + 1) 0)).2 = true) :
    parseLoop s idx =
      some (idx.map fun start => (hexToByte (s.getD start 0) (s.getD (start + 1) 0)).1) := by
  induction idx with
  | nil => rfl
  | cons a rest ih =>
    have ha := h a (List.mem_cons_self a rest)
    have hr := ih fun x hx => h x (List.mem_cons_of_mem a hx)
    simp only [parseLoop, List.map_cons]
    rw [if_pos ha, hr]

/-- Any invalid pair anywhere makes the loop fail. -/
theorem parseLoop_eq_none (s : List Nat) (idx : List Nat)
    (h : ∃ start ∈ idx, (hexToByte (s.getD start 0) (s.getD (start + 1) 0)).2 ≠ true) :
    parseLoop s idx = none := by
  induction idx with
  | nil => simp at h
  | cons a rest ih =>
    obtain ⟨start, hmem, hbad⟩ := h
    by_cases ha : (hexToByte (s.getD a 0) (s.getD (a + 1) 0)).2 = true
    · have : start ∈ rest := by
        rcases List.mem_cons.mp hmem with rfl | hr
        · exact absurd ha hbad
        · exact hr
      have hr := ih ⟨start, this, hbad⟩
      simp only [parseLoop]
      rw [if_pos ha, hr]
    · simp only [parseLoop]
      rw [if_neg ha]

/-- Success of the loop forces every pair to be valid and determines the
result. -/
theorem parseLoop_some (s : List Nat) (idx : List Nat) (us : List Nat)
    (h : parseLoop s idx = some us) :
    (∀ start ∈ idx, (hexToByte (s.getD start 0) (s.getD (start + 1) 0)).2 = true) ∧
    us = idx.map fun start => (hexToByte (s.getD start 0) (s.getD (start + 1) 0)).1 := by
  have hall : ∀ start ∈ idx, (hexToByte (s.getD start 0) (s.getD (start + 1) 0)).2 = true := by
    intro start hmem
    by_contra hbad
    rw [parseLoop_eq_none s idx ⟨start, hmem, hbad⟩] at h
    exact Option.noConfusion h
  refine ⟨hall, ?_⟩
  rw [parseLoop_eq_map s idx hall] at h
  exact (Option.some.inj h).symm

/-- `Parse` on a well-formed input: the two guards pass and the loop
collects the bytes. -/
theorem Parse_success (s : List Nat) (hlen : s.length = 36)
    (h8 : s.getD 8 0 = 45) (h13 : s.getD 13 0 = 45)
    (h18 : s.getD 18 0 = 45) (h23 : s.getD 23 0 = 45)
    (hhex : ∀ start ∈ hexStartedIndex,
      (hexToByte (s.getD start 0) (s.getD (start + 1) 0)).2 = true) :
    Parse s =
      (hexStartedIndex.map fun start =>
        (hexToByte (s.getD start 0) (s.getD (start + 1) 0)).1, none) := by
  unfold Parse
  rw [if_neg (by omega), if_neg (by push_neg; exact ⟨h8, h13, h18, h23⟩)]
  unfold parse
  rw [parseLoop_eq_map s hexStartedIndex hhex]

/-! ### Further helper lemmas -/

theorem hexToByte_encode_snd (b : Nat) (hb : b < 256) :
    (hexToByte (hexChar (b / 16)) (hexChar (b % 16))).2 = true := by
  rw [hexToByte_encode b hb]

theorem hexToByte_encode_fst (b : Nat) (hb : b < 256) :
    (hexToByte (hexChar (b / 16)) (hexChar (b % 16))).1 = b := by
  rw [hexToByte_encode b hb]

theorem or64_shift : ∀ x : Fin 16, (x.val ||| 64) >>> 4 = 4 := by decide

theorem or128_shift : ∀ x : Fin 64, (x.val ||| 128) >>> 6 = 2 := by decide

/-- Any value carrying the stamped version and variant bits passes `IsV4`,
whether or not it is `Nil`. -/
theorem IsV4_of_bits (uid : List Nat) (h6 : uid.getD 6 0 >>> 4 = 4)
    (h8 : uid.getD 8 0 >>> 6 = 2) : IsV4 uid = true := by
  unfold IsV4
  split
  · rfl
  · rw [if_neg (by omega), if_neg (by omega)]

theorem getD_map_lt (f : Nat → Nat) (l : List Nat) (k : Nat) (h : k < l.length) :
    (l.map f).getD k 0 = f (l.getD k 0) := by
  have h2 : k < (l.map f).length := by simpa using h
  rw [List.getD_eq_getElem _ _ h2, List.getD_eq_getElem _ _ h, List.getElem_map]

/-- `hexToByte` only looks at the hex value of its inputs, which upper-casing
of valid digits preserves. -/
theorem hexToByte_upper (c1 c2 : Nat) (h1 : hexValue c1 ≠ 255) (h2 : hexValue c2 ≠ 255) :
    hexToByte (upperHexChar c1) (upperHexChar c2) = hexToByte c1 c2 := by
  unfold hexToByte
  rw [hexValue_upper c1 h1, hexValue_upper c2 h2]

/-- Re-encoding the byte assembled from a valid pair of digits yields the
lower-cased pair. -/
theorem enc_pair (c1 c2 : Nat) (h1 : hexValue c1 ≠ 255) (h2 : hexValue c2 ≠ 255) :
    hexChar ((hexToByte c1 c2).1 / 16) = lowerHexChar c1 ∧
    hexChar ((hexToByte c1 c2).1 % 16) = lowerHexChar c2 := by
  obtain ⟨hv, v1, v2⟩ := hexToByte_ok c1 c2 ((hexToByte_ok_iff c1 c2).mpr ⟨h1, h2⟩)
  rw [hv]
  constructor
  · rw [(by omega : (hexValue c1 * 16 + hexValue c2) / 16 = hexValue c1)]
    exact hexChar_lower c1 h1
  · rw [(by omega : (hexValue c1 * 16 + hexValue c2) % 16 = hexValue c2)]
    exact hexChar_lower c2 h2

theorem hexStartedIndex_bound : ∀ start ∈ hexStartedIndex, start < 36 ∧ start + 1 < 36 := by
  decide

/-- The canonical string, flattened: position by position. -/
theorem encodeHex_eq (u : List Nat) :
    encodeHex u =
      [hexChar (u.getD 0 0 / 16), hexChar (u.getD 0 0 % 16),
       hexChar (u.getD 1 0 / 16), hexChar (u.getD 1 0 % 16),
       hexChar (u.getD 2 0 / 16), hexChar (u.getD 2 0 % 16),
       hexChar (u.getD 3 0 / 16), hexChar (u.getD 3 0 % 16), 45,
       hexChar (u.getD 4 0 / 16), hexChar (u.getD 4 0 % 16),
       hexChar (u.getD 5 0 / 16), hexChar (u.getD 5 0 % 16), 45,
       hexChar (u.getD 6 0 / 16), hexChar (u.getD 6 0 % 16),
       hexChar (u.getD 7 0 / 16), hexChar (u.getD 7 0 % 16), 45,
       hexChar (u.getD 8 0 / 16), hexChar (u.getD 8 0 % 16),
       hexChar (u.getD 9 0 / 16), hexChar (u.getD 9 0 % 16), 45,
       hexChar (u.getD 10 0 / 16), hexChar (u.getD 10 0 % 16),
       hexChar (u.getD 11 0 / 16), hexChar (u.getD 11 0 % 16),
       hexChar (u.getD 12 0 / 16), hexChar (u.getD 12 0 % 16),
       hexChar (u.getD 13 0 / 16), hexChar (u.getD 13 0 % 16),
       hexChar (u.getD 14 0 / 16), hexChar (u.getD 14 0 % 16),
       hexChar (u.getD 15 0 / 16), hexChar (u.getD 15 0 % 16)] := by
  simp [encodeHex, encodeByte]

/-- Bytes of a 16-byte value are bounded when all members are. -/
theorem getD_lt_256 (u : List Nat) (h16 : u.length = 16)
    (hb : ∀ b ∈ u, b < 256) : ∀ j, j < 16 → u.getD j 0 < 256 := by
  intro j hj
  have hj' : j < u.length := by omega
  rw [List.getD_eq_getElem _ _ hj']
  exact hb _ (List.getElem_mem hj')

/-- Extensionality for byte strings of length 36 in terms of `getD`. -/
theorem list_ext_36 (l1 l2 : List Nat) (h1 : l1.length = 36) (h2 : l2.length = 36)
    (h : ∀ i, i < 36 → l1.getD i 0 = l2.getD i 0) : l1 = l2 := by
  apply List.ext_getElem (by omega)
  intro n hn1 hn2
  have hg := h n (by omega)
  rwa [List.getD_eq_getElem _ _ hn1, List.getD_eq_getElem _ _ hn2] at hg

/-! ### The claims -/

/-- C1: for every 16-byte identifier `u` (all entries bytes), parsing the
canonical string of `u` returns exactly `u` with no error. -/
theorem Parse_uuidString (u : List Nat) (h16 : u.length = 16)
    (hb : ∀ b ∈ u, b < 256) : Parse (uuidString u) = (u, none) := by
  revert hb
  match u, h16 with
  | [a0, a1, a2, a3, a4, a5, a6, a7, a8, a9, a10, a11, a12, a13, a14, a15], _ =>
    intro hb
    have h0 : a0 < 256 := hb a0 (by simp)
    have h1 : a1 < 256 := hb a1 (by simp)
    have h2 : a2 < 256 := hb a2 (by simp)
    have h3 : a3 < 256 := hb a3 (by simp)
    have h4 : a4 < 256 := hb a4 (by simp)
    have h5 : a5 < 256 := hb a5 (by simp)
    have h6 : a6 < 256 := hb a6 (by simp)
    have h7 : a7 < 256 := hb a7 (by simp)
    have h8 : a8 < 256 := hb a8 (by simp)
    have h9 : a9 < 256 := hb a9 (by simp)
    have h10 : a10 < 256 := hb a10 (by simp)
    have h11 : a11 < 256 := hb a11 (by simp)
    have h12 : a12 < 256 := hb a12 (by simp)
    have h13 : a13 < 256 := hb a13 (by simp)
    have h14 : a14 < 256 := hb a14 (by simp)
    have h15 : a15 < 256 := hb a15 (by simp)
    simp [Parse, parse, uuidString, encodeHex, encodeByte, hexStartedIndex, parseLoop,
          hexToByte_encode_snd, hexToByte_encode_fst, h0, h1, h2, h3, h4, h5, h6, h7,
          h8, h9, h10, h11, h12, h13, h14, h15]

/-- C1 witness: the round-trip at the nil identifier. -/
theorem Parse_uuidString_witness :
    Nil.length = 16 ∧ Parse (uuidString Nil) = (Nil, none) :=
  ⟨by decide, Parse_uuidString Nil (by decide) (by decide)⟩

/-- C2: on a successful 16-byte read, `NewUUID` keeps every byte except that
byte 6 becomes `(b6 & 0x0F) | 0x40` and byte 8 becomes `(b8 & 0x3F) | 0x80`;
the result passes `IsV4`, has version nibble 4 and variant bits `10`. -/
theorem NewUUID_stamps (entropy : List Nat) (h16 : entropy.length = 16) :
    (NewUUID entropy).2 = none ∧
    (NewUUID entropy).1.getD 6 0 = ((entropy.getD 6 0) &&& 0x0f) ||| 0x40 ∧
    (NewUUID entropy).1.getD 8 0 = ((entropy.getD 8 0) &&& 0x3f) ||| 0x80 ∧
    (∀ i, i < 16 → i ≠ 6 → i ≠ 8 → (NewUUID entropy).1.getD i 0 = entropy.getD i 0) ∧
    IsV4 (NewUUID entropy).1 = true ∧
    (NewUUID entropy).1.getD 6 0 >>> 4 = 4 ∧
    (NewUUID entropy).1.getD 8 0 >>> 6 = 2 := by
  match entropy, h16 with
  | [e0, e1, e2, e3, e4, e5, e6, e7, e8, e9, e10, e11, e12, e13, e14, e15], _ =>
    have f6 : ((e6 &&& 15) ||| 64) >>> 4 = 4 :=
      or64_shift ⟨e6 &&& 15, by have := Nat.and_le_right (n := e6) (m := 15); omega⟩
    have f8 : ((e8 &&& 63) ||| 128) >>> 6 = 2 :=
      or128_shift ⟨e8 &&& 63, by have := Nat.and_le_right (n := e8) (m := 63); omega⟩
    refine ⟨rfl, rfl, rfl, ?_, ?_, f6, f8⟩
    · intro i hi hne6 hne8
      interval_cases i <;> first | rfl | omega
    · exact IsV4_of_bits _ f6 f8

/-- C2 witness: the stamping on the fixed test entropy. -/
theorem NewUUID_stamps_witness :
    StaticReaderBytes.length = 16 ∧ IsV4 (NewUUID StaticReaderBytes).1 = true :=
  ⟨rfl, (NewUUID_stamps StaticReaderBytes rfl).2.2.2.2.1⟩

/-- C5: the canonical string of any 16-byte value has exactly 36 characters,
hyphens at positions 8, 13, 18 and 23, lower-case hex digits everywhere
else, and byte `j` is hex-encoded at the position pair given by
`hexStartedIndex`. -/
theorem uuidString_format (u : List Nat) (h16 : u.length = 16)
    (hb : ∀ b ∈ u, b < 256) :
    (uuidString u).length = 36 ∧
    (uuidString u).getD 8 0 = 45 ∧ (uuidString u).getD 13 0 = 45 ∧
    (uuidString u).getD 18 0 = 45 ∧ (uuidString u).getD 23 0 = 45 ∧
    (∀ i, i < 36 → i ≠ 8 → i ≠ 13 → i ≠ 18 → i ≠ 23 →
      isLowerHexDigit ((uuidString u).getD i 0) = true) ∧
    (∀ j, j < 16 →
      (uuidString u).getD (hexStartedIndex.getD j 0) 0 = hexChar (u.getD j 0 / 16) ∧
      (uuidString u).getD (hexStartedIndex.getD j 0 + 1) 0 = hexChar (u.getD j 0 % 16)) := by
  have hlt := getD_lt_256 u h16 hb
  have H0 := hlt 0 (by omega)
  have H1 := hlt 1 (by omega)
  have H2 := hlt 2 (by omega)
  have H3 := hlt 3 (by omega)
  have H4 := hlt 4 (by omega)
  have H5 := hlt 5 (by omega)
  have H6 := hlt 6 (by omega)
  have H7 := hlt 7 (by omega)
  have H8 := hlt 8 (by omega)
  have H9 := hlt 9 (by omega)
  have H10 := hlt 10 (by omega)
  have H11 := hlt 11 (by omega)
  have H12 := hlt 12 (by omega)
  have H13 := hlt 13 (by omega)
  have H14 := hlt 14 (by omega)
  have H15 := hlt 15 (by omega)
  simp only [uuidString, encodeHex_eq]
  refine ⟨rfl, rfl, rfl, rfl, rfl, ?_, ?_⟩
  · intro i hi e8 e13 e18 e23
    interval_cases i <;> first | omega | exact isLowerHexDigit_hexChar _ (by omega)
  · intro j hj
    interval_cases j <;> exact ⟨rfl, rfl⟩

/-- C5 witness: the format facts at the fixed test bytes. -/
theorem uuidString_format_witness :
    StaticReaderBytes.length = 16 ∧ (uuidString StaticReaderBytes).length = 36 :=
  ⟨rfl, (uuidString_format StaticReaderBytes rfl (by decide)).1⟩

/-- C7: when fewer than 16 bytes of entropy are available, `NewUUID` fails
with the source-read error and returns the nil identifier. -/
theorem NewUUID_short_read (available : List Nat) (h : available.length < 16) :
    NewUUID available = (Nil, some .sourceRead) := by
  unfold NewUUID fillUUID
  rw [if_pos h]

/-- C7 witness: the generator bound to the always-failing reader. -/
theorem NewUUID_short_read_witness :
    ErrorsReaderBytes.length < 16 ∧ NewUUID ErrorsReaderBytes = (Nil, some .sourceRead) :=
  ⟨by decide, NewUUID_short_read ErrorsReaderBytes (by decide)⟩

/-- C8: the generator bound to the fixed-test reader succeeds, and the
canonical string of the identifier it produces is exactly the constant
`StaticUUID`, `"00010203-0405-4607-8809-0a0b0c0d0e0f"`; as `NewUUID` is a
function of the supplied entropy, two successive calls agree. -/
theorem NewUUID_static :
    (NewUUID StaticReaderBytes).2 = none ∧
    uuidString (NewUUID StaticReaderBytes).1 = StaticUUIDChars := by
  decide

/-- C4: `IsV4 u` is true exactly when `u` is the nil identifier or both the
version nibble is `0100` and the variant bits are `10`; in particular nil is
vacuously valid, a version nibble of 3 is rejected, and a correct version
with byte 8 equal to `0x70` (variant bits `01`) is rejected. -/
theorem IsV4_spec :
    (∀ u : List Nat,
      IsV4 u = true ↔ (u = Nil ∨ (u.getD 6 0 >>> 4 = 4 ∧ u.getD 8 0 >>> 6 = 2))) ∧
    IsV4 Nil = true ∧
    IsV4 [0, 0, 0, 0, 0, 0, 0x35, 0, 0x80, 0, 0, 0, 0, 0, 0, 0] = false ∧
    IsV4 [0, 0, 0, 0, 0, 0, 0x47, 0, 0x70, 0, 0, 0, 0, 0, 0, 0] = false := by
  refine ⟨?_, by decide, by decide, by decide⟩
  intro u
  constructor
  · intro h
    by_cases hn : u = Nil
    · exact Or.inl hn
    · refine Or.inr ?_
      unfold IsV4 at h
      rw [if_neg hn] at h
      by_cases h6 : u.getD 6 0 >>> 4 ≠ 4
      · rw [if_pos h6] at h
        exact absurd h (by simp)
      · rw [if_neg h6] at h
        by_cases h8 : u.getD 8 0 >>> 6 ≠ 2
        · rw [if_pos h8] at h
          exact absurd h (by simp)
        · exact ⟨by omega, by omega⟩
  · intro h
    rcases h with rfl | ⟨h6, h8⟩
    · decide
    · exact IsV4_of_bits u h6 h8

/-- C4 witness: vacuous validity of the nil identifier via the
characterization. -/
theorem IsV4_spec_witness : IsV4 Nil = true := IsV4_spec.2.1

/-- C3: `Parse` checks its failure conditions in order — wrong length first,
then missing separators, then any invalid hex digit among the 16 pairs —
the three errors are pairwise distinct, and every failure returns the nil
identifier. -/
theorem Parse_error_order (s : List Nat) :
    (s.length ≠ 36 → Parse s = (Nil, some .badLength)) ∧
    (s.length = 36 →
      (s.getD 8 0 ≠ 45 ∨ s.getD 13 0 ≠ 45 ∨ s.getD 18 0 ≠ 45 ∨ s.getD 23 0 ≠ 45) →
      Parse s = (Nil, some .missingSeparator)) ∧
    (s.length = 36 →
      (s.getD 8 0 = 45 ∧ s.getD 13 0 = 45 ∧ s.getD 18 0 = 45 ∧ s.getD 23 0 = 45) →
      (∃ start ∈ hexStartedIndex,
        hexValue (s.getD start 0) = 255 ∨ hexValue (s.getD (start + 1) 0) = 255) →
      Parse s = (Nil, some .invalidHex)) ∧
    (∀ e, (Parse s).2 = some e → (Parse s).1 = Nil) ∧
    (FormatError.badLength ≠ FormatError.missingSeparator ∧
     FormatError.badLength ≠ FormatError.invalidHex ∧
     FormatError.missingSeparator ≠ FormatError.invalidHex) := by
  refine ⟨?_, ?_, ?_, ?_, by decide⟩
  · intro h
    unfold Parse
    rw [if_pos h]
  · intro hlen hsep
    unfold Parse
    rw [if_neg (by omega), if_pos hsep]
  · intro hlen hsep hbad
    unfold Parse
    rw [if_neg (by omega), if_neg (by push_neg; exact hsep)]
    unfold parse
    obtain ⟨start, hmem, hor⟩ := hbad
    rw [parseLoop_eq_none s hexStartedIndex ⟨start, hmem, ?_⟩]
    rw [Ne, hexToByte_ok_iff]
    rintro ⟨x1, x2⟩
    rcases hor with h | h
    · exact x1 h
    · exact x2 h
  · intro e he
    unfold Parse parse at he ⊢
    by_cases hl : s.length ≠ 36
    · rw [if_pos hl]
    · rw [if_neg hl] at he ⊢
      by_cases hs : s.getD 8 0 ≠ 45 ∨ s.getD 13 0 ≠ 45 ∨ s.getD 18 0 ≠ 45 ∨ s.getD 23 0 ≠ 45
      · rw [if_pos hs]
      · rw [if_neg hs] at he ⊢
        rcases hq : parseLoop s hexStartedIndex with _ | us
        · rfl
        · rw [hq] at he
          simp at he

/-- C3 witness: the empty string fails the length check. -/
theorem Parse_error_order_witness :
    Parse [] = (Nil, some FormatError.badLength) :=
  (Parse_error_order []).1 (by decide)

/-- C6: `Parse` never checks version or variant bits: any 36-character
string with separators in place and 32 valid hex digits parses without
error, whatever bytes 6 and 8 decode to. -/
theorem Parse_ignores_version (s : List Nat) (hlen : s.length = 36)
    (h8 : s.getD 8 0 = 45) (h13 : s.getD 13 0 = 45)
    (h18 : s.getD 18 0 = 45) (h23 : s.getD 23 0 = 45)
    (hhex : ∀ start ∈ hexStartedIndex,
      hexValue (s.getD start 0) ≠ 255 ∧ hexValue (s.getD (start + 1) 0) ≠ 255) :
    (Parse s).2 = none := by
  rw [Parse_success s hlen h8 h13 h18 h23
    (fun start hs => (hexToByte_ok_iff _ _).mpr (hhex start hs))]

/-- C6 witness: the all-`f` string parses although its version nibble is
`f`, not 4. -/
theorem Parse_ignores_version_witness :
    (Parse AllFChars).2 = none ∧ AllFChars.getD 14 0 = 102 :=
  ⟨Parse_ignores_version AllFChars rfl rfl rfl rfl rfl (by decide), rfl⟩


/-- C9: on any accepted input, replacing lower-case hex letters by their
upper-case forms is also accepted with the same identifier and error, and
re-encoding the accepted identifier gives the input with upper-case hex
letters lower-cased. -/
theorem Parse_case_insensitive (s : List Nat) (h : (Parse s).2 = none) :
    Parse (s.map upperHexChar) = Parse s ∧
    uuidString (Parse s).1 = s.map lowerHexChar := by
  have hlen : s.length = 36 := by
    by_contra hl
    unfold Parse at h
    rw [if_pos hl] at h
    simp at h
  have hsep : s.getD 8 0 = 45 ∧ s.getD 13 0 = 45 ∧ s.getD 18 0 = 45 ∧ s.getD 23 0 = 45 := by
    by_contra hs
    unfold Parse at h
    rw [if_neg (by omega)] at h
    rw [if_pos (by tauto)] at h
    simp at h
  have hpar : (parse s hexStartedIndex).2 = none := by
    unfold Parse at h
    rwa [if_neg (by omega), if_neg (by push_neg; exact hsep)] at h
  obtain ⟨us, hus⟩ : ∃ us, parseLoop s hexStartedIndex = some us := by
    unfold parse at hpar
    rcases hq : parseLoop s hexStartedIndex with _ | us
    · rw [hq] at hpar
      simp at hpar
    · exact ⟨us, rfl⟩
  obtain ⟨hhex, husMap⟩ := parseLoop_some s _ us hus
  have hP : Parse s = (hexStartedIndex.map fun start =>
      (hexToByte (s.getD start 0) (s.getD (start + 1) 0)).1, none) :=
    Parse_success s hlen hsep.1 hsep.2.1 hsep.2.2.1 hsep.2.2.2 hhex
  constructor
  · have hlen2 : (s.map upperHexChar).length = 36 := by simp [hlen]
    have hgm : ∀ k, k < 36 → (s.map upperHexChar).getD k 0 = upperHexChar (s.getD k 0) := by
      intro k hk
      exact getD_map_lt upperHexChar s k (by omega)
    have hpair : ∀ start ∈ hexStartedIndex,
        hexToByte ((s.map upperHexChar).getD start 0) ((s.map upperHexChar).getD (start + 1) 0)
          = hexToByte (s.getD start 0) (s.getD (start + 1) 0) := by
      intro start hst
      obtain ⟨hb1, hb2⟩ := hexStartedIndex_bound start hst
      rw [hgm start (by omega), hgm (start + 1) (by omega)]
      obtain ⟨hv1, hv2⟩ := (hexToByte_ok_iff _ _).mp (hhex start hst)
      exact hexToByte_upper _ _ hv1 hv2
    rw [Parse_success (s.map upperHexChar) hlen2
        (by rw [hgm 8 (by omega), hsep.1]; rfl)
        (by rw [hgm 13 (by omega), hsep.2.1]; rfl)
        (by rw [hgm 18 (by omega), hsep.2.2.1]; rfl)
        (by rw [hgm 23 (by omega), hsep.2.2.2]; rfl)
        (fun start hst => by rw [hpair start hst]; exact hhex start hst), hP]
    rw [List.map_congr_left fun start hst => congrArg Prod.fst (hpair start hst)]
  · have h1 : (Parse s).1 = hexStartedIndex.map fun start =>
        (hexToByte (s.getD start 0) (s.getD (start + 1) 0)).1 := by rw [hP]
    rw [h1]
    simp only [hexStartedIndex, List.map_cons, List.map_nil]
    unfold uuidString
    rw [encodeHex_eq]
    apply list_ext_36 _ _ (by simp) (by simp [hlen])
    intro i hi
    rw [getD_map_lt lowerHexChar s i (by omega)]
    interval_cases i
    · obtain ⟨q1, q2⟩ := (hexToByte_ok_iff _ _).mp (hhex 0 (by decide))
      exact (enc_pair _ _ q1 q2).1
    · obtain ⟨q1, q2⟩ := (hexToByte_ok_iff _ _).mp (hhex 0 (by decide))
      exact (enc_pair _ _ q1 q2).2
    · obtain ⟨q1, q2⟩ := (hexToByte_ok_iff _ _).mp (hhex 2 (by decide))
      exact (enc_pair _ _ q1 q2).1
    · obtain ⟨q1, q2⟩ := (hexToByte_ok_iff _ _).mp (hhex 2 (by decide))
      exact (enc_pair _ _ q1 q2).2
    · obtain ⟨q1, q2⟩ := (hexToByte_ok_iff _ _).mp (hhex 4 (by decide))
      exact (enc_pair _ _ q1 q2).1
    · obtain ⟨q1, q2⟩ := (hexToByte_ok_iff _ _).mp (hhex 4 (by decide))
      exact (enc_pair _ _ q1 q2).2
    · obtain ⟨q1, q2⟩ := (hexToByte_ok_iff _ _).mp (hhex 6 (by decide))
      exact (enc_pair _ _ q1 q2).1
    · obtain ⟨q1, q2⟩ := (hexToByte_ok_iff _ _).mp (hhex 6 (by decide))
      exact (enc_pair _ _ q1 q2).2
    · rw [hsep.1]
      rfl
    · obtain ⟨q1, q2⟩ := (hexToByte_ok_iff _ _).mp (hhex 9 (by decide))
      exact (enc_pair _ _ q1 q2).1
    · obtain ⟨q1, q2⟩ := (hexToByte_ok_iff _ _).mp (hhex 9 (by decide))
      exact (enc_pair _ _ q1 q2).2
    · obtain ⟨q1, q2⟩ := (hexToByte_ok_iff _ _).mp (hhex 11 (by decide))
      exact (enc_pair _ _ q1 q2).1
    · obtain ⟨q1, q2⟩ := (hexToByte_ok_iff _ _).mp (hhex 11 (by decide))
      exact (enc_pair _ _ q1 q2).2
    · rw [hsep.2.1]
      rfl
    · obtain ⟨q1, q2⟩ := (hexToByte_ok_iff _ _).mp (hhex 14 (by decide))
      exact (enc_pair _ _ q1 q2).1
    · obtain ⟨q1, q2⟩ := (hexToByte_ok_iff _ _).mp (hhex 14 (by decide))
      exact (enc_pair _ _ q1 q2).2
    · obtain ⟨q1, q2⟩ := (hexToByte_ok_iff _ _).mp (hhex 16 (by decide))
      exact (enc_pair _ _ q1 q2).1
    · obtain ⟨q1, q2⟩ := (hexToByte_ok_iff _ _).mp (hhex 16 (by decide))
      exact (enc_pair _ _ q1 q2).2
    · rw [hsep.2.2.1]
      rfl
    · obtain ⟨q1, q2⟩ := (hexToByte_ok_iff _ _).mp (hhex 19 (by decide))
      exact (enc_pair _ _ q1 q2).1
    · obtain ⟨q1, q2⟩ := (hexToByte_ok_iff _ _).mp (hhex 19 (by decide))
      exact (enc_pair _ _ q1 q2).2
    · obtain ⟨q1, q2⟩ := (hexToByte_ok_iff _ _).mp (hhex 21 (by decide))
      exact (enc_pair _ _ q1 q2).1
    · obtain ⟨q1, q2⟩ := (hexToByte_ok_iff _ _).mp (hhex 21 (by decide))
      exact (enc_pair _ _ q1 q2).2
    · rw [hsep.2.2.2]
      rfl
    · obtain ⟨q1, q2⟩ := (hexToByte_ok_iff _ _).mp (hhex 24 (by decide))
      exact (enc_pair _ _ q1 q2).1
    · obtain ⟨q1, q2⟩ := (hexToByte_ok_iff _ _).mp (hhex 24 (by decide))
      exact (enc_pair _ _ q1 q2).2
    · obtain ⟨q1, q2⟩ := (hexToByte_ok_iff _ _).mp (hhex 26 (by decide))
      exact (enc_pair _ _ q1 q2).1
    · obtain ⟨q1, q2⟩ := (hexToByte_ok_iff _ _).mp (hhex 26 (by decide))
      exact (enc_pair _ _ q1 q2).2
    · obtain ⟨q1, q2⟩ := (hexToByte_ok_iff _ _).mp (hhex 28 (by decide))
      exact (enc_pair _ _ q1 q2).1
    · obtain ⟨q1, q2⟩ := (hexToByte_ok_iff _ _).mp (hhex 28 (by decide))
      exact (enc_pair _ _ q1 q2).2
    · obtain ⟨q1, q2⟩ := (hexToByte_ok_iff _ _).mp (hhex 30 (by decide))
      exact (enc_pair _ _ q1 q2).1
    · obtain ⟨q1, q2⟩ := (hexToByte_ok_iff _ _).mp (hhex 30 (by decide))
      exact (enc_pair _ _ q1 q2).2
    · obtain ⟨q1, q2⟩ := (hexToByte_ok_iff _ _).mp (hhex 32 (by decide))
      exact (enc_pair _ _ q1 q2).1
    · obtain ⟨q1, q2⟩ := (hexToByte_ok_iff _ _).mp (hhex 32 (by decide))
      exact (enc_pair _ _ q1 q2).2
    · obtain ⟨q1, q2⟩ := (hexToByte_ok_iff _ _).mp (hhex 34 (by decide))
      exact (enc_pair _ _ q1 q2).1
    · obtain ⟨q1, q2⟩ := (hexToByte_ok_iff _ _).mp (hhex 34 (by decide))
      exact (enc_pair _ _ q1 q2).2

/-- C9 witness: the static constant, whose letters `a`–`f` all occur. -/
theorem Parse_case_insensitive_witness :
    (Parse StaticUUIDChars).2 = none ∧
    Parse (StaticUUIDChars.map upperHexChar) = Parse StaticUUIDChars ∧
    uuidString (Parse StaticUUIDChars).1 = StaticUUIDChars.map lowerHexChar :=
  ⟨by decide, Parse_case_insensitive StaticUUIDChars (by decide)⟩

/-- C10: parsing the canonical all-zero string succeeds and returns the nil
identifier together with no error, so a nil result does not by itself
signal a parse failure. -/
theorem Parse_zero_string : Parse ZeroUUIDChars = (Nil, none) := by decide

end UUIDSpec
